import Mathlib

/-!
Verification of the text-to-structured-data inference engine of the
endangered-ocean repository (`pipeline/scrape_noaa_details.py` and the
matching keyword chain in `pipeline/analyze_threats.py`).

The Python functions are shallowly embedded as executable Lean functions:
strings are `String` / `List Char`, Python `int` is `ℤ`, Python `float`
is modelled as `ℚ` (exact rationals; the only float operations in the
core are multiplication by the literal 0.3048 = 3048/10000 and Python's
banker's `round`, and on the whole domain reachable through the numeric
token grammar — values 0..9999999 — IEEE double arithmetic agrees
exactly with the rational computation, so the model is faithful).
The regular expressions compiled with `re.IGNORECASE` are embedded as
hand-written matchers over `List Char` that implement Python's
`re.search` semantics for those concrete patterns: leftmost match wins,
alternatives are tried in source order, greedy repetition.  Wherever a
greedy/optional construct is implemented without backtracking, the
surrounding pattern makes backtracking observationally irrelevant (the
fallback branch always fails on the same next character); these spots
are noted next to the definitions.  Inputs are treated as ASCII text,
matching the scraped English narratives the code consumes.
-/

namespace EndangeredOcean

/-- Python `\s` (ASCII whitespace; the narratives are ASCII). -/
def isWs (c : Char) : Bool :=
  c = ' ' || c = '\t' || c = '\n' || c = '\r' || c = '\x0b' || c = '\x0c'

/-- Python `\d` (ASCII digit). -/
def isDigitC (c : Char) : Bool :=
  '0' ≤ c && c ≤ '9'

/-- Python `\w` (ASCII word character: letter, digit or underscore). -/
def isWordC (c : Char) : Bool :=
  c.isAlpha || isDigitC c || c = '_'

/-- ASCII lowercasing, as Python's `str.lower()` acts on ASCII text. -/
def lowerC (c : Char) : Char :=
  if 'A' ≤ c && c ≤ 'Z' then Char.ofNat (c.toNat + 32) else c

def lowerL (cs : List Char) : List Char :=
  cs.map lowerC

def lowerStr (s : String) : String :=
  ⟨lowerL s.data⟩

/-- Split into maximal whitespace-free words, as Python's `str.split()`. -/
def wordsAux : List Char → List Char → List (List Char)
  | [], acc => if acc.isEmpty then [] else [acc.reverse]
  | c :: rest, acc =>
    if isWs c then
      if acc.isEmpty then wordsAux rest [] else acc.reverse :: wordsAux rest []
    else
      wordsAux rest (c :: acc)

def wordsOf (cs : List Char) : List (List Char) :=
  wordsAux cs []

/-- Embeds `_normalize_space` / `re.sub(r"\s+", " ", text).strip()`:
collapse every whitespace run to a single space and trim the ends
(the two Python idioms produce the same string). -/
def normalizeSpace (cs : List Char) : List Char :=
  List.intercalate [' '] (wordsOf cs)

/-- Python `str.strip()` on ASCII text. -/
def stripL (cs : List Char) : List Char :=
  ((cs.dropWhile isWs).reverse.dropWhile isWs).reverse

/-- Embeds `re.split(r"(?<=[.!?])\s+", text)` on text whose whitespace
runs have already been collapsed to single spaces (which
`split_sentences` guarantees by normalizing first): a sentence ends at a
terminal punctuation mark that is followed by a space; the space is the
separator and is dropped. -/
def splitPunctAux : List Char → List Char → List (List Char)
  | [], acc => [acc.reverse]
  | [c], acc => [(c :: acc).reverse]
  | c :: d :: rest, acc =>
    if (c = '.' || c = '!' || c = '?') && d = ' ' then
      (c :: acc).reverse :: splitPunctAux rest []
    else
      splitPunctAux (d :: rest) (c :: acc)

/-- Embeds the inner `split_sentences` of `_parse_explicit_depth_range_m`:
normalize whitespace, split after terminal punctuation, strip each piece
and drop empty pieces. -/
def split_sentences (cs : List Char) : List (List Char) :=
  let text := normalizeSpace cs
  if text.isEmpty then []
  else (splitPunctAux text []).map stripL |>.filter (fun s => !s.isEmpty)

/-!
Every quantity flowing through `_to_meters` and `round` in the source is
an exact multiple of 1/10000 meter (the captured numbers are naturals
and the only scaling factor is 0.3048 = 3048/10000), and on that whole
domain Python's double arithmetic agrees exactly with rational
arithmetic.  The executable pipeline therefore carries values scaled by
10000 (ten-thousandths of a meter) in `ℕ`; `ratHalfEven` below restates
the rounding on `ℚ` and is connected to the scaled computation by
`round_e4_eq_ratHalfEven`.
-/

/-- Embeds `_to_meters`, with the result scaled by 10000: unit tokens
m/meter/meters pass the value through (scaled), ft/feet multiply by
0.3048 = 3048/10000, an unrecognized unit passes through (scaled;
unreachable from the regex set). -/
def to_meters (value : ℕ) (unit : String) : ℕ :=
  let ul := lowerStr unit
  if ul = "m" || ul = "meter" || ul = "meters" then value * 10000
  else if ul = "ft" || ul = "feet" then value * 3048
  else value * 10000

/-- Python's built-in banker's `round` applied to k/10000: nearest
integer, ties to the even integer. -/
def round_e4 (k : ℕ) : ℕ :=
  let f := k / 10000
  let r := k % 10000
  if r < 5000 then f
  else if 5000 < r then f + 1
  else if f % 2 = 0 then f else f + 1

/-- Python's built-in banker's `round`, stated on exact rationals:
nearest integer, ties to the even integer. -/
def ratHalfEven (q : ℚ) : ℤ :=
  if q - ⌊q⌋ < 1/2 then ⌊q⌋
  else if 1/2 < q - ⌊q⌋ then ⌊q⌋ + 1
  else if ⌊q⌋ % 2 = 0 then ⌊q⌋ else ⌊q⌋ + 1

/-- The scaled integer rounding computes exactly the banker's rounding
of the represented rational k/10000. -/
theorem round_e4_eq_ratHalfEven (k : ℕ) :
    (round_e4 k : ℤ) = ratHalfEven ((k : ℚ) / 10000) := by
  have hk : k = 10000 * (k / 10000) + k % 10000 := (Nat.div_add_mod k 10000).symm
  have hrlt : k % 10000 < 10000 := Nat.mod_lt _ (by norm_num)
  set f : ℕ := k / 10000 with hf
  set r : ℕ := k % 10000 with hr
  have hq : (k : ℚ) / 10000 = (f : ℚ) + (r : ℚ) / 10000 := by
    rw [hk]; push_cast; ring
  have hfr : (0 : ℚ) ≤ (r : ℚ) / 10000 ∧ (r : ℚ) / 10000 < 1 := by
    constructor
    · positivity
    · rw [div_lt_one (by norm_num)]
      exact_mod_cast hrlt
  have hfloor : ⌊(k : ℚ) / 10000⌋ = (f : ℤ) := by
    rw [hq]
    rw [Int.floor_eq_iff (α := ℚ)]
    constructor
    · push_cast; linarith [hfr.1]
    · push_cast; linarith [hfr.2]
  have hfrac : (k : ℚ) / 10000 - ⌊(k : ℚ) / 10000⌋ = (r : ℚ) / 10000 := by
    rw [hfloor, hq]; push_cast; ring
  have hlt : ((r : ℚ) / 10000 < 1/2) ↔ r < 5000 := by
    rw [div_lt_div_iff₀ (by norm_num) (by norm_num)]
    constructor
    · intro h; by_contra hc; push_neg at hc
      have : (5000 : ℚ) ≤ (r : ℚ) := by exact_mod_cast hc
      linarith
    · intro h
      have : (r : ℚ) < 5000 := by exact_mod_cast h
      linarith
  have hgt : (1/2 < (r : ℚ) / 10000) ↔ 5000 < r := by
    rw [lt_div_iff₀ (by norm_num)]
    constructor
    · intro h; by_contra hc; push_neg at hc
      have : (r : ℚ) ≤ 5000 := by exact_mod_cast hc
      linarith
    · intro h
      have : (5000 : ℚ) < (r : ℚ) := by exact_mod_cast h
      linarith
  have hpar : ((f : ℤ) % 2 = 0) ↔ f % 2 = 0 := by omega
  unfold round_e4 ratHalfEven
  rw [hfrac, hfloor]
  by_cases h1 : r < 5000
  · rw [if_pos h1, if_pos (hlt.mpr h1)]
  · rw [if_neg h1, if_neg (fun hc => h1 (hlt.mp hc))]
    by_cases h2 : 5000 < r
    · rw [if_pos h2, if_pos (hgt.mpr h2)]
      omega
    · rw [if_neg h2, if_neg (fun hc => h2 (hgt.mp hc))]
      by_cases h3 : f % 2 = 0
      · rw [if_pos h3, if_pos (hpar.mpr h3)]
      · rw [if_neg h3, if_neg (fun hc => h3 (hpar.mp hc))]
        omega

/-!
Scaffolding for `re.search`: a matcher receives the character preceding
the current position (for `\b`) and the remaining input, and reports the
captures of a match anchored at that position; `search` tries every
position from the left and returns the first success, exactly Python's
leftmost-match rule.
-/

def isWordOpt : Option Char → Bool
  | some c => isWordC c
  | none => false

/-- Python `\b`: the two sides of the position disagree on wordness. -/
def atBoundary (prev : Option Char) (rest : List Char) : Bool :=
  isWordOpt prev != isWordOpt rest.head?

def searchAux (m : Option Char → List Char → Option α) :
    Option Char → List Char → Option α
  | prev, [] => m prev []
  | prev, c :: rest =>
    match m prev (c :: rest) with
    | some r => some r
    | none => searchAux m (some c) rest

def search (m : Option Char → List Char → Option α) (cs : List Char) : Option α :=
  searchAux m none cs

/-- Consume a literal case-insensitively (`re.IGNORECASE`); the literal
is given lowercased. -/
def litCI : List Char → List Char → Option (List Char)
  | [], cs => some cs
  | _ :: _, [] => none
  | w :: ws, c :: cs => if lowerC c = w then litCI ws cs else none

/-- Consume `\s*` (deterministic maximal munch; in every pattern below
the following element never accepts a whitespace character, so greedy
backtracking can never produce a different match). -/
def ws0 (cs : List Char) : List Char :=
  cs.dropWhile isWs

/-- Consume `\s+`. -/
def ws1 (cs : List Char) : Option (List Char) :=
  match cs with
  | c :: rest => if isWs c then some (ws0 rest) else none
  | [] => none

/-- Consume an optional `s?` (greedy; in every use the next pattern
element is `\s+`/`\s*` plus a non-s literal, so backtracking over the
optional `s` can never rescue a failed match). -/
def optS (cs : List Char) : List Char :=
  match cs with
  | c :: rest => if lowerC c = 's' then rest else cs
  | [] => cs

def digitsToNat (ds : List Char) : ℕ :=
  ds.foldl (fun n c => 10 * n + (c.toNat - '0'.toNat)) 0

/-- Consume the numeric token `\d{1,4}(?:,\d{3})?` and return its value
with the comma stripped, as the source does.  Deterministic rendering of
the greedy original: every occurrence in the patterns below is anchored
so that no digit precedes it, and is followed by `\s*` plus an element
that accepts neither a digit nor a comma, so a match exists iff the
maximal digit run has length 1..4, and the optional comma group is taken
iff a comma followed by exactly three digits (and no fourth) follows. -/
def parseNum (cs : List Char) : Option (ℕ × List Char) :=
  let d1 := cs.takeWhile isDigitC
  let r1 := cs.dropWhile isDigitC
  if d1.length = 0 || 4 < d1.length then none
  else
    match r1 with
    | ',' :: r2 =>
      let d2 := r2.takeWhile isDigitC
      let r3 := r2.dropWhile isDigitC
      if d2.length = 3 then some (digitsToNat (d1 ++ d2), r3) else none
    | _ => some (digitsToNat d1, r1)

/-- True when no word character follows, i.e. `\b` holds right after a
literal that ends in a word character. -/
def noWordNext (cs : List Char) : Bool :=
  !isWordOpt cs.head?

/-- Consume the unit group `m|meters?|ft|feet` trying the alternatives
in source order (greedy `s?` rendered as the alternative ordering
meters, meter) with the rest of the pattern as continuation `k`, and
return the captured unit lowercased (the source lowercases the capture
inside `_to_meters`). -/
def matchUnit (k : List Char → Bool) (cs : List Char) : Option (String × List Char) :=
  (unitAlt "m") <|> (unitAlt "meters") <|> (unitAlt "meter") <|>
    (unitAlt "ft") <|> (unitAlt "feet")
where
  unitAlt (u : String) : Option (String × List Char) :=
    match litCI u.data cs with
    | some rest => if k rest then some (u, rest) else none
    | none => none

/-- Consume `(?:deep|depths?)\b` (and the reordered `(?:depths?|deep)\b`
of `diving_to_re`, whose acceptance set is identical): one of the whole
words deep, depths, depth, alternatives in source order. -/
def deepWordAt (cs : List Char) : Bool :=
  (match litCI "deep".data cs with
   | some rest => noWordNext rest
   | none => false) ||
  (match litCI "depths".data cs with
   | some rest => noWordNext rest
   | none => false) ||
  (match litCI "depth".data cs with
   | some rest => noWordNext rest
   | none => false)

/-!
The seven compiled patterns of `_parse_explicit_depth_range_m`, one
matcher each.  Optional prefix groups are rendered as try-then-skip
without backtracking into the continuation: in every such group the
consumed text starts with a letter that the element following the group
can never accept (the group starts with at/in/water/depth/to/about and
the next element is a literal with a different first letter or the
numeric token), so when the group matches locally but the continuation
fails, skipping the group fails on the same spot too, exactly as in the
backtracking original.
-/

/-- Optional group `(?:at\s+depths?\s+)?` of `between_re`. -/
def optAtDepths (cs : List Char) : List Char :=
  match (do
      let r1 ← litCI "at".data cs
      let r2 ← ws1 r1
      let r3 ← litCI "depth".data r2
      ws1 (optS r3)) with
  | some r => r
  | none => cs

/-- Optional group `(?:depths?\s*)?` of `between_re`. -/
def optDepthsWs (cs : List Char) : List Char :=
  match litCI "depth".data cs with
  | some r1 => ws0 (optS r1)
  | none => cs

/-- Separator `(?:to|and|-|–)` of `between_re`; the alternatives start
with pairwise distinct characters, so first-match is exact. -/
def sepBetween (cs : List Char) : Option (List Char) :=
  litCI "to".data cs <|> litCI "and".data cs <|>
    litCI "-".data cs <|> litCI "–".data cs

/-- Matcher for `between_re`:
`\b(?:at\s+depths?\s+)?(?:depths?\s*)?(?:between|from)\s+A\s*(?:to|and|-|–)\s*B\s*UNIT\b`. -/
def matchBetweenAt (prev : Option Char) (cs : List Char) : Option (ℕ × ℕ × String) :=
  if !atBoundary prev cs then none
  else do
    let c2 := optDepthsWs (optAtDepths cs)
    let c3 ← litCI "between".data c2 <|> litCI "from".data c2
    let c4 ← ws1 c3
    let (a, c5) ← parseNum c4
    let c6 ← sepBetween (ws0 c5)
    let (b, c7) ← parseNum (ws0 c6)
    let (u, _) ← matchUnit noWordNext (ws0 c7)
    some (a, b, u)

/-- Optional group `(?:at\s+|in\s+)?` of `range_re`. -/
def optAtIn (cs : List Char) : List Char :=
  match (do let r ← litCI "at".data cs; ws1 r) with
  | some r => r
  | none =>
    match (do let r ← litCI "in".data cs; ws1 r) with
    | some r => r
    | none => cs

/-- Optional group `(?:water\s+)?` of `range_re`. -/
def optWater (cs : List Char) : List Char :=
  match (do let r ← litCI "water".data cs; ws1 r) with
  | some r => r
  | none => cs

/-- Inner optional group `(?:of|ranging\s+from)?` of `range_re`. -/
def optOfRanging (cs : List Char) : List Char :=
  match litCI "of".data cs with
  | some r => r
  | none =>
    match (do
        let r1 ← litCI "ranging".data cs
        let r2 ← ws1 r1
        litCI "from".data r2) with
    | some r => r
    | none => cs

/-- Optional group `(?:depths?\s*(?:of|ranging\s+from)?\s*)?` of `range_re`. -/
def optDepthsOf (cs : List Char) : List Char :=
  match litCI "depth".data cs with
  | some r1 => ws0 (optOfRanging (ws0 (optS r1)))
  | none => cs

/-- Separator `(?:to|-|–)` of `range_re`. -/
def sepRange (cs : List Char) : Option (List Char) :=
  litCI "to".data cs <|> litCI "-".data cs <|> litCI "–".data cs

/-- Matcher for `range_re`:
`\b(?:at\s+|in\s+)?(?:water\s+)?(?:depths?\s*(?:of|ranging\s+from)?\s*)?A\s*(?:to|-|–)\s*B\s*UNIT\b`. -/
def matchRangeAt (prev : Option Char) (cs : List Char) : Option (ℕ × ℕ × String) :=
  if !atBoundary prev cs then none
  else do
    let c := optDepthsOf (optWater (optAtIn cs))
    let (a, c5) ← parseNum c
    let c6 ← sepRange (ws0 c5)
    let (b, c7) ← parseNum (ws0 c6)
    let (u, _) ← matchUnit noWordNext (ws0 c7)
    some (a, b, u)

/-- Optional group `(?:to\s+about\s+|to\s+|about\s+)?` of
`single_deep_re`, alternatives in source order. -/
def optToAbout (cs : List Char) : List Char :=
  match (do
      let r1 ← litCI "to".data cs
      let r2 ← ws1 r1
      let r3 ← litCI "about".data r2
      ws1 r3) with
  | some r => r
  | none =>
    match (do let r ← litCI "to".data cs; ws1 r) with
    | some r => r
    | none =>
      match (do let r ← litCI "about".data cs; ws1 r) with
      | some r => r
      | none => cs

/-- Continuation `\s+(?:deep|depths?)\b` used after the unit group. -/
def wsDeepAfter (rest : List Char) : Bool :=
  match ws1 rest with
  | some r => deepWordAt r
  | none => false

/-- Matcher for `single_deep_re`:
`\b(?:to\s+about\s+|to\s+|about\s+)?A\s*UNIT\s+(?:deep|depths?)\b`. -/
def matchSingleDeepAt (prev : Option Char) (cs : List Char) : Option (ℕ × String) :=
  if !atBoundary prev cs then none
  else do
    let (a, c1) ← parseNum (optToAbout cs)
    let (u, _) ← matchUnit wsDeepAfter (ws0 c1)
    some (a, u)

/-- Matcher for `as_deep_as_re`: `\bas\s+deep\s+as\s+A\s*UNIT\b`. -/
def matchAsDeepAsAt (prev : Option Char) (cs : List Char) : Option (ℕ × String) :=
  if !atBoundary prev cs then none
  else do
    let r1 ← litCI "as".data cs
    let r2 ← ws1 r1
    let r3 ← litCI "deep".data r2
    let r4 ← ws1 r3
    let r5 ← litCI "as".data r4
    let r6 ← ws1 r5
    let (a, c1) ← parseNum r6
    let (u, _) ← matchUnit noWordNext (ws0 c1)
    some (a, u)

/-- Matcher for `depths_to_re`: `\bdepths?\s+to\s+A\s*UNIT\b`. -/
def matchDepthsToAt (prev : Option Char) (cs : List Char) : Option (ℕ × String) :=
  if !atBoundary prev cs then none
  else do
    let r1 ← litCI "depth".data cs
    let r2 ← ws1 (optS r1)
    let r3 ← litCI "to".data r2
    let r4 ← ws1 r3
    let (a, c1) ← parseNum r4
    let (u, _) ← matchUnit noWordNext (ws0 c1)
    some (a, u)

/-- Tail of `diving_to_re` after `div(?:e|es|ing)`:
`\s+to\s+A\s*[- ]?\s*UNIT\s+(?:depths?|deep)\b`.  The single optional
`[- ]` character is taken after the maximal whitespace munch, which
reaches the same set of follow-up positions as the greedy original. -/
def divingTail (cs : List Char) : Option (ℕ × String) := do
  let r1 ← ws1 cs
  let r2 ← litCI "to".data r1
  let r3 ← ws1 r2
  let (a, c1) ← parseNum r3
  let c2 := ws0 c1
  let c3 := match c2 with
    | '-' :: r => r
    | ' ' :: r => r
    | _ => c2
  let (u, _) ← matchUnit wsDeepAfter (ws0 c3)
  some (a, u)

/-- Matcher for `diving_to_re`:
`\bdiv(?:e|es|ing)\s+to\s+A\s*[- ]?\s*UNIT\s+(?:depths?|deep)\b`; the
verb-suffix alternatives are tried in source order with the full tail
as continuation. -/
def matchDivingToAt (prev : Option Char) (cs : List Char) : Option (ℕ × String) :=
  if !atBoundary prev cs then none
  else do
    let r1 ← litCI "div".data cs
    (do let r2 ← litCI "e".data r1; divingTail r2) <|>
      (do let r2 ← litCI "es".data r1; divingTail r2) <|>
      (do let r2 ← litCI "ing".data r1; divingTail r2)

/-- Matcher for `lt_re`:
`\b(?:<|less\s+than)\s*A\s*UNIT\b(?:\s+(?:deep|depths?))?`.  The
trailing optional group follows the last capture and the end of the
pattern, so it influences neither success nor captures and is dropped.
Note that `\b` before `<` demands a word character immediately before
the `<`. -/
def matchLtAt (prev : Option Char) (cs : List Char) : Option (ℕ × String) :=
  if !atBoundary prev cs then none
  else do
    let c1 ← litCI "<".data cs <|>
      (do
        let r1 ← litCI "less".data cs
        let r2 ← ws1 r1
        litCI "than".data r2)
    let (a, c2) ← parseNum (ws0 c1)
    let (u, _) ← matchUnit noWordNext (ws0 c2)
    some (a, u)

/-- Whole-word test: the given lowercased word followed by `\b`. -/
def wordAt (w : String) (cs : List Char) : Bool :=
  match litCI w.data cs with
  | some r => noWordNext r
  | none => false

/-- Embeds `depth_context_re.search`: `\b(depth|depths|deep)\b`. -/
def depth_context (s : List Char) : Bool :=
  (search (fun prev cs =>
    if atBoundary prev cs &&
        (wordAt "depth" cs || wordAt "depths" cs || wordAt "deep" cs) then
      some ()
    else none) s).isSome

/-- Third alternative `in\s+length` of `length_context_re`, with the
closing `\b`. -/
def inLengthAt (cs : List Char) : Bool :=
  match (do
      let r1 ← litCI "in".data cs
      let r2 ← ws1 r1
      litCI "length".data r2) with
  | some r => noWordNext r
  | none => false

/-- Embeds `length_context_re.search`: `\b(length|long|in\s+length)\b`. -/
def length_context (s : List Char) : Bool :=
  (search (fun prev cs =>
    if atBoundary prev cs &&
        (wordAt "length" cs || wordAt "long" cs || inLengthAt cs) then
      some ()
    else none) s).isSome

/-- Result of a range-pattern hit: the two captured numbers (comma
stripped) are ordered, converted to meters and rounded, as in the
`between_re`/`range_re` branch of the source. -/
def rangeVal (a b : ℕ) (u : String) : ℤ × ℤ :=
  ((round_e4 (to_meters (min a b) u) : ℤ), (round_e4 (to_meters (max a b) u) : ℤ))

/-- Result of a single-value hit: the captured number converted and
rounded, as in the single-pattern branch of the source. -/
def singleVal (n : ℕ) (u : String) : ℤ :=
  (round_e4 (to_meters n u) : ℤ)

/-- The pattern cascade the source runs inside one sentence that passed
both context filters: `between_re` and `range_re` first, then the four
single-value patterns, then `lt_re`; the first hit returns. -/
def sentenceMatch (s : List Char) : Option (ℤ × ℤ) :=
  match search matchBetweenAt s with
  | some (a, b, u) => some (rangeVal a b u)
  | none =>
    match search matchRangeAt s with
    | some (a, b, u) => some (rangeVal a b u)
    | none =>
      match search matchSingleDeepAt s with
      | some (a, u) => some (singleVal a u, singleVal a u)
      | none =>
        match search matchAsDeepAsAt s with
        | some (a, u) => some (singleVal a u, singleVal a u)
        | none =>
          match search matchDepthsToAt s with
          | some (a, u) => some (singleVal a u, singleVal a u)
          | none =>
            match search matchDivingToAt s with
            | some (a, u) => some (singleVal a u, singleVal a u)
            | none =>
              match search matchLtAt s with
              | some (a, u) => some (0, singleVal a u)
              | none => none

/-- One iteration of the sentence loop: the context filters (`continue`
on failure) followed by the pattern cascade. -/
def sentenceResult (s : List Char) : Option (ℤ × ℤ) :=
  if !depth_context s then none
  else if length_context s then none
  else sentenceMatch s

/-- The sentence loop of `_parse_explicit_depth_range_m`: first sentence
with a hit wins, no hit anywhere gives `(None, None)`. -/
def parseLoop : List (List Char) → Option ℤ × Option ℤ
  | [] => (none, none)
  | sent :: rest =>
    match sentenceResult (normalizeSpace sent) with
    | some (mn, mx) => (some mn, some mx)
    | none => parseLoop rest

/-- Embeds `_parse_explicit_depth_range_m`. -/
def parse_explicit_depth_range_m (depth_notes : String) : Option ℤ × Option ℤ :=
  if depth_notes.data.isEmpty then (none, none)
  else if (split_sentences depth_notes.data).isEmpty then (none, none)
  else parseLoop (split_sentences depth_notes.data)

def deep_keywords : List String :=
  ["deep sea", "deepwater", "deep-water", "offshore", "oceanic", "pelagic",
   "upper slope", "continental slope", "abyss", "bathyal", "over deep water",
   "deeper waters", "deeper than"]

def shelf_keywords : List String :=
  ["continental shelf", "shelf waters", "shelf break", "outer shelf",
   "over the continental shelf"]

def shallow_keywords : List String :=
  ["intertidal", "subtidal", "shallow", "nearshore", "inshore", "coastal",
   "reef", "lagoons", "lagoon", "estuaries", "estuary", "river mouth",
   "seagrass", "mangrove", "bays", "bay"]

def isPrefixL : List Char → List Char → Bool
  | [], _ => true
  | _ :: _, [] => false
  | a :: as, b :: bs => a = b && isPrefixL as bs

/-- Python's substring test `needle in hay`. -/
def isSubL (needle : List Char) : List Char → Bool
  | [] => needle.isEmpty
  | c :: rest => isPrefixL needle (c :: rest) || isSubL needle rest

/-- Python `any(keyword in text for keyword in ks)`: case is already
folded by the caller. -/
def hasKeyword (ks : List String) (text : List Char) : Bool :=
  ks.any (fun k => isSubL k.data text)

/-- Embeds `_infer_depth_bucket_range_m`: keyword buckets checked deep,
then continental shelf, then shallow, on the whitespace-normalized
lowercased narrative; first hit wins. -/
def infer_depth_bucket_range_m (depth_notes : String) :
    Option ℤ × Option ℤ × String :=
  if depth_notes.data.isEmpty then (none, none, "")
  else if hasKeyword deep_keywords (lowerL (normalizeSpace depth_notes.data)) then
    (some 200, some 1000, "deep")
  else if hasKeyword shelf_keywords (lowerL (normalizeSpace depth_notes.data)) then
    (some 20, some 200, "continental_shelf")
  else if hasKeyword shallow_keywords (lowerL (normalizeSpace depth_notes.data)) then
    (some 0, some 20, "shallow")
  else (none, none, "")

/-- Embeds `extract_depth_range`: explicit parse first, bucket inference
only when the explicit parse produced nothing. -/
def extract_depth_range (depth_notes : String) : Option ℤ × Option ℤ :=
  if (parse_explicit_depth_range_m depth_notes).1.isSome ||
      (parse_explicit_depth_range_m depth_notes).2.isSome then
    parse_explicit_depth_range_m depth_notes
  else
    ((infer_depth_bucket_range_m depth_notes).1,
     (infer_depth_bucket_range_m depth_notes).2.1)

/-- Embeds `define_depth_source`. -/
def define_depth_source (depth_notes : String)
    (min_depth_m max_depth_m : Option ℤ) : String :=
  if min_depth_m.isNone && max_depth_m.isNone then "unknown"
  else if (parse_explicit_depth_range_m depth_notes).1.isSome ||
      (parse_explicit_depth_range_m depth_notes).2.isSome then "explicit"
  else if !((infer_depth_bucket_range_m depth_notes).2.2 = "") &&
      ((infer_depth_bucket_range_m depth_notes).1.isSome ||
       (infer_depth_bucket_range_m depth_notes).2.1.isSome) then
    "bucket:" ++ (infer_depth_bucket_range_m depth_notes).2.2
  else "unknown"

def cc_keywords : List String :=
  ["climate change", "ocean acidification", "ocean warming",
   "sea level rise", "temperatures"]

def disease_keywords : List String :=
  ["disease", "diseases"]

def fishing_keywords : List String :=
  ["fishing", "bycatch", "overfishing", "fisheries", "entanglement",
   "vessel", "vessel-based", "harvest", "overharvest"]

def habitat_keywords : List String :=
  ["habitat", "habitats", "dredging", "habitat"]

def pollution_keywords : List String :=
  ["oil", "spill", "gas", "pollution", "pollutants", "contaminants",
   "toxic", "toxins", "debris"]

def predation_keywords : List String :=
  ["predation", "predators", "harassment"]

def population_keywords : List String :=
  ["population"]

/-- One iteration of the phrase loop shared by `normalize_threats`
(scrape_noaa_details.py) and `extract_normalized_threats`
(analyze_threats.py): the lowercased phrase is tested against the seven
keyword lists in their fixed elif order and adds at most one canonical
category to the accumulated set. -/
def threatStep (seen : Finset String) (threat : String) : Finset String :=
  if hasKeyword cc_keywords (lowerL threat.data) then insert "climate change" seen
  else if hasKeyword disease_keywords (lowerL threat.data) then insert "disease" seen
  else if hasKeyword fishing_keywords (lowerL threat.data) then insert "fishing" seen
  else if hasKeyword habitat_keywords (lowerL threat.data) then insert "habitat loss" seen
  else if hasKeyword pollution_keywords (lowerL threat.data) then insert "pollution" seen
  else if hasKeyword predation_keywords (lowerL threat.data) then insert "predation" seen
  else if hasKeyword population_keywords (lowerL threat.data) then insert "low population" seen
  else seen

/-- Embeds `normalize_threats`: the Python function materializes the
set `seen` as a list in unspecified set-iteration order; the embedding
returns the set itself. -/
def normalize_threats (threats : List String) : Finset String :=
  if threats.isEmpty then ∅
  else threats.foldl threatStep ∅

/-!
Claim-side definitions: reformulations following the specification's
words, to be compared with the source-side functions above.
-/

/-- First hit among the four single-value patterns in the order the
code tries them: `single_deep_re`, `as_deep_as_re`, `depths_to_re`,
`diving_to_re`. -/
def firstSingleHit (s : List Char) : Option (ℕ × String) :=
  search matchSingleDeepAt s <|> search matchAsDeepAsAt s <|>
    search matchDepthsToAt s <|> search matchDivingToAt s

/-- First hit among the two range patterns in the order the code tries
them: `between_re`, then `range_re`. -/
def firstRangeHit (s : List Char) : Option (ℕ × ℕ × String) :=
  search matchBetweenAt s <|> search matchRangeAt s

/-- Spec-side source tagger, following the spec's words: explicit when
the explicit pattern matcher yields a non-null bound, else the matched
bucket, else unknown. -/
def specDepthSource (t : String) : String :=
  if (parse_explicit_depth_range_m t).1.isSome ||
      (parse_explicit_depth_range_m t).2.isSome then "explicit"
  else if (infer_depth_bucket_range_m t).1.isSome ||
      (infer_depth_bucket_range_m t).2.1.isSome then
    "bucket:" ++ (infer_depth_bucket_range_m t).2.2
  else "unknown"

/-- Spec-side bucket table: ordered (keywords, lo, hi, name) rows, to be
evaluated top to bottom with first match winning. -/
def bucketTable : List (List String × ℤ × ℤ × String) :=
  [(deep_keywords, 200, 1000, "deep"),
   (shelf_keywords, 20, 200, "continental_shelf"),
   (shallow_keywords, 0, 20, "shallow")]

/-- Spec-side bucket inferencer: first row of `bucketTable` whose
keywords occur in the whitespace-normalized lowercased narrative. -/
def specInfer (t : String) : Option ℤ × Option ℤ × String :=
  match bucketTable.find? (fun e => hasKeyword e.1 (lowerL (normalizeSpace t.data))) with
  | some e => (some e.2.1, some e.2.2.1, e.2.2.2)
  | none => (none, none, "")

/-- Spec-side threat category table: ordered (label, keywords) rows in
the fixed priority order. -/
def categoryTable : List (String × List String) :=
  [("climate change", cc_keywords),
   ("disease", disease_keywords),
   ("fishing", fishing_keywords),
   ("habitat loss", habitat_keywords),
   ("pollution", pollution_keywords),
   ("predation", predation_keywords),
   ("low population", population_keywords)]

/-- The at-most-one canonical category a raw phrase maps to: the first
row of `categoryTable` with a keyword occurring in the lowercased
phrase. -/
def categoryOf (threat : String) : Option String :=
  (categoryTable.find? (fun e => hasKeyword e.2 (lowerL threat.data))).map Prod.fst

/-!
Helper lemmas.
-/

theorem round_e4_mono {k l : ℕ} (h : k ≤ l) : round_e4 k ≤ round_e4 l := by
  unfold round_e4
  dsimp only
  split_ifs <;> omega

theorem to_meters_mono {a b : ℕ} (u : String) (h : a ≤ b) :
    to_meters a u ≤ to_meters b u := by
  unfold to_meters
  dsimp only
  split_ifs <;> omega

theorem singleVal_nonneg (n : ℕ) (u : String) : 0 ≤ singleVal n u := by
  unfold singleVal
  exact Int.ofNat_nonneg _

theorem rangeVal_le (a b : ℕ) (u : String) : (rangeVal a b u).1 ≤ (rangeVal a b u).2 := by
  unfold rangeVal
  dsimp only
  exact_mod_cast round_e4_mono (to_meters_mono u (min_le_max))

theorem sentenceMatch_cases (s : List Char) :
    sentenceMatch s = none ∨
      (∃ a b u, sentenceMatch s = some (rangeVal a b u)) ∨
      (∃ a u, sentenceMatch s = some (singleVal a u, singleVal a u)) ∨
      (∃ a u, sentenceMatch s = some (0, singleVal a u)) := by
  unfold sentenceMatch
  rcases search matchBetweenAt s with _ | ⟨a, b, u⟩
  · rcases search matchRangeAt s with _ | ⟨a, b, u⟩
    · rcases search matchSingleDeepAt s with _ | ⟨a, u⟩
      · rcases search matchAsDeepAsAt s with _ | ⟨a, u⟩
        · rcases search matchDepthsToAt s with _ | ⟨a, u⟩
          · rcases search matchDivingToAt s with _ | ⟨a, u⟩
            · rcases search matchLtAt s with _ | ⟨a, u⟩
              · exact Or.inl rfl
              · exact Or.inr (Or.inr (Or.inr ⟨a, u, rfl⟩))
            · exact Or.inr (Or.inr (Or.inl ⟨a, u, rfl⟩))
          · exact Or.inr (Or.inr (Or.inl ⟨a, u, rfl⟩))
        · exact Or.inr (Or.inr (Or.inl ⟨a, u, rfl⟩))
      · exact Or.inr (Or.inr (Or.inl ⟨a, u, rfl⟩))
    · exact Or.inr (Or.inl ⟨a, b, u, rfl⟩)
  · exact Or.inr (Or.inl ⟨a, b, u, rfl⟩)

theorem sentenceMatch_le {s : List Char} {mn mx : ℤ}
    (h : sentenceMatch s = some (mn, mx)) : mn ≤ mx := by
  rcases sentenceMatch_cases s with h0 | ⟨a, b, u, he⟩ | ⟨a, u, he⟩ | ⟨a, u, he⟩
  · rw [h0] at h; cases h
  · rw [he] at h
    have h' := Option.some.inj h
    have h1 := congrArg Prod.fst h'
    have h2 := congrArg Prod.snd h'
    dsimp at h1 h2
    rw [← h1, ← h2]
    exact rangeVal_le a b u
  · rw [he] at h
    have h' := Option.some.inj h
    have h1 := congrArg Prod.fst h'
    have h2 := congrArg Prod.snd h'
    dsimp at h1 h2
    rw [← h1, ← h2]
  · rw [he] at h
    have h' := Option.some.inj h
    have h1 := congrArg Prod.fst h'
    have h2 := congrArg Prod.snd h'
    dsimp at h1 h2
    rw [← h1, ← h2]
    exact singleVal_nonneg a u

theorem sentenceResult_le {s : List Char} {mn mx : ℤ}
    (h : sentenceResult s = some (mn, mx)) : mn ≤ mx := by
  unfold sentenceResult at h
  split_ifs at h with h1 h2
  exact sentenceMatch_le h

theorem parseLoop_shape (ss : List (List Char)) :
    parseLoop ss = (none, none) ∨
      ∃ mn mx, parseLoop ss = (some mn, some mx) ∧ mn ≤ mx := by
  induction ss with
  | nil => exact Or.inl rfl
  | cons sent rest ih =>
    unfold parseLoop
    split
    · rename_i mn mx heq
      exact Or.inr ⟨mn, mx, rfl, sentenceResult_le heq⟩
    · exact ih

theorem parse_shape (t : String) :
    parse_explicit_depth_range_m t = (none, none) ∨
      ∃ mn mx, parse_explicit_depth_range_m t = (some mn, some mx) ∧ mn ≤ mx := by
  unfold parse_explicit_depth_range_m
  split_ifs
  · exact Or.inl rfl
  · exact Or.inl rfl
  · exact parseLoop_shape _

theorem infer_shape (t : String) :
    infer_depth_bucket_range_m t = (none, none, "") ∨
      infer_depth_bucket_range_m t = (some 200, some 1000, "deep") ∨
      infer_depth_bucket_range_m t = (some 20, some 200, "continental_shelf") ∨
      infer_depth_bucket_range_m t = (some 0, some 20, "shallow") := by
  unfold infer_depth_bucket_range_m
  split_ifs
  · exact Or.inl rfl
  · exact Or.inr (Or.inl rfl)
  · exact Or.inr (Or.inr (Or.inl rfl))
  · exact Or.inr (Or.inr (Or.inr rfl))
  · exact Or.inl rfl

theorem orElse_none_split {α : Type} {x y : Option α} (h : (x <|> y) = none) :
    x = none ∧ y = none := by
  cases x with
  | none => exact ⟨rfl, by simpa using h⟩
  | some a => simp at h

/-- The filters pass, no range pattern matches, and the first single
pattern hit (in the order the code tries them) captures `(n, u)`: then
the sentence contributes the converted value `(val, val)`. -/
theorem sentenceResult_single {s : List Char} {n : ℕ} {u : String}
    (h1 : depth_context s = true) (h2 : length_context s = false)
    (h3 : search matchBetweenAt s = none) (h4 : search matchRangeAt s = none)
    (h5 : firstSingleHit s = some (n, u)) :
    sentenceResult s = some (singleVal n u, singleVal n u) := by
  have hm : sentenceMatch s = some (singleVal n u, singleVal n u) := by
    unfold sentenceMatch
    rw [h3, h4]
    unfold firstSingleHit at h5
    rcases hs : search matchSingleDeepAt s with _ | ⟨a, v⟩
    · rw [hs] at h5
      simp only [Option.none_orElse] at h5
      rcases ha : search matchAsDeepAsAt s with _ | ⟨a, v⟩
      · rw [ha] at h5
        simp only [Option.none_orElse] at h5
        rcases hd : search matchDepthsToAt s with _ | ⟨a, v⟩
        · rw [hd] at h5
          simp only [Option.none_orElse] at h5
          rcases hv : search matchDivingToAt s with _ | ⟨a, v⟩
          · rw [hv] at h5
            exact absurd h5 (by simp)
          · rw [hv] at h5
            simp only [Option.some.injEq, Prod.mk.injEq] at h5
            obtain ⟨rfl, rfl⟩ := h5
            rfl
        · rw [hd] at h5
          simp only [Option.some_orElse, Option.some.injEq, Prod.mk.injEq] at h5
          obtain ⟨rfl, rfl⟩ := h5
          rfl
      · rw [ha] at h5
        simp only [Option.some_orElse, Option.some.injEq, Prod.mk.injEq] at h5
        obtain ⟨rfl, rfl⟩ := h5
        rfl
    · rw [hs] at h5
      simp only [Option.some_orElse, Option.some.injEq, Prod.mk.injEq] at h5
      obtain ⟨rfl, rfl⟩ := h5
      rfl
  unfold sentenceResult
  rw [h1, h2]
  simp only [Bool.not_true, Bool.false_eq_true, if_false]
  exact hm

/-!
The claims.
-/

/-- C1 (counterexample): the claim orders the single-value patterns
"as deep as" > "depths to" > "diving to" > "A unit deep/depths", but the
code tries "A unit deep/depths" (`single_deep_re`) first.  On the
sentence below both `single_deep_re` (capturing 100 feet) and
`as_deep_as_re` (capturing 200 feet) match while the filters pass and no
range pattern matches, so the claimed priority predicts (61, 61) while
the code returns (30, 30). -/
theorem claim_C1_counterexample :
    depth_context (normalizeSpace "The fish lives at 100 feet depths, as deep as 200 feet.".data) = true ∧
    length_context (normalizeSpace "The fish lives at 100 feet depths, as deep as 200 feet.".data) = false ∧
    search matchBetweenAt (normalizeSpace "The fish lives at 100 feet depths, as deep as 200 feet.".data) = none ∧
    search matchRangeAt (normalizeSpace "The fish lives at 100 feet depths, as deep as 200 feet.".data) = none ∧
    search matchAsDeepAsAt (normalizeSpace "The fish lives at 100 feet depths, as deep as 200 feet.".data) = some (200, "feet") ∧
    singleVal 200 "feet" = 61 ∧
    parse_explicit_depth_range_m "The fish lives at 100 feet depths, as deep as 200 feet." = (some 30, some 30) ∧
    ((some 30, some 30) : Option ℤ × Option ℤ) ≠ (some 61, some 61) :=
  ⟨by decide, by decide, by decide, by decide, by decide, by decide, by decide, by decide⟩

/-- C1 (amended): for every sentence that passes the depth-context and
length-context filters and matches none of the range patterns, the
single-value patterns are tried in the fixed priority order
"A `<unit>` deep/depths" (optionally prefixed by "to about"/"about")
first, then "as deep as A `<unit>`", then "depths to A `<unit>`", then
"diving to A `<unit>` depths/deep"; whenever more than one matches, the
pair (val, val) returned is the value captured by the highest-priority
pattern in that order (`firstSingleHit`). -/
theorem claim_C1_amended (s : List Char) (n : ℕ) (u : String)
    (h1 : depth_context s = true) (h2 : length_context s = false)
    (h3 : search matchBetweenAt s = none) (h4 : search matchRangeAt s = none)
    (h5 : firstSingleHit s = some (n, u)) :
    sentenceResult s = some (singleVal n u, singleVal n u) :=
  sentenceResult_single h1 h2 h3 h4 h5

/-- C1 (witness for the amended claim at a concrete sentence where two
single-value patterns match). -/
theorem claim_C1_witness :
    firstSingleHit (normalizeSpace "The fish lives at 100 feet depths, as deep as 200 feet.".data) = some (100, "feet") ∧
    sentenceResult (normalizeSpace "The fish lives at 100 feet depths, as deep as 200 feet.".data) = some (30, 30) := by
  constructor
  · decide
  · have h := claim_C1_amended
      (normalizeSpace "The fish lives at 100 feet depths, as deep as 200 feet.".data)
      100 "feet" (by decide) (by decide) (by decide) (by decide) (by decide)
    rw [h]; decide

/-- C2: on the narrative "They are found at depths between 100 and 200
feet." the extractor returns min 30 / max 61 meters and the source
tagger applied to that narrative and those bounds returns "explicit". -/
theorem claim_C2 :
    extract_depth_range "They are found at depths between 100 and 200 feet." = (some 30, some 61) ∧
    define_depth_source "They are found at depths between 100 and 200 feet." (some 30) (some 61) = "explicit" :=
  ⟨by decide, by decide⟩

/-- C3: whenever `extract_depth_range` returns two non-null bounds,
min_depth_m ≤ max_depth_m, on every narrative and through every path
(range, single-value, less-than, or bucket). -/
theorem claim_C3 (t : String) (mn mx : ℤ)
    (h : extract_depth_range t = (some mn, some mx)) : mn ≤ mx := by
  unfold extract_depth_range at h
  split_ifs at h with hc
  · rcases parse_shape t with hp | ⟨a, b, hp, hle⟩
    · rw [hp] at h
      exact absurd (congrArg Prod.fst h) (by simp)
    · rw [hp] at h
      have h1 := Option.some.inj (congrArg Prod.fst h)
      have h2 := Option.some.inj (congrArg Prod.snd h)
      rw [← h1, ← h2]
      exact hle
  · rcases infer_shape t with hi | hi | hi | hi
    · rw [hi] at h
      exact absurd (congrArg Prod.fst h) (by simp)
    · rw [hi] at h
      have h1 := Option.some.inj (congrArg Prod.fst h)
      have h2 := Option.some.inj (congrArg Prod.snd h)
      rw [← h1, ← h2]; norm_num
    · rw [hi] at h
      have h1 := Option.some.inj (congrArg Prod.fst h)
      have h2 := Option.some.inj (congrArg Prod.snd h)
      rw [← h1, ← h2]; norm_num
    · rw [hi] at h
      have h1 := Option.some.inj (congrArg Prod.fst h)
      have h2 := Option.some.inj (congrArg Prod.snd h)
      rw [← h1, ← h2]; norm_num

/-- C3 (witness). -/
theorem claim_C3_witness :
    extract_depth_range "They live at depths between 100 and 200 feet." = (some 30, some 61) ∧
    (30 : ℤ) ≤ 61 :=
  ⟨by decide, claim_C3 "They live at depths between 100 and 200 feet." 30 61 (by decide)⟩

/-- C4: for every narrative, feeding `extract_depth_range`'s bounds into
`define_depth_source` yields exactly the tag determined by which
upstream path succeeded: "explicit" when the explicit matcher produced a
non-null bound, else "bucket:<name>" when the bucket inferencer did,
else "unknown" (`specDepthSource`). -/
theorem claim_C4 (t : String) :
    define_depth_source t (extract_depth_range t).1 (extract_depth_range t).2 =
      specDepthSource t := by
  rcases parse_shape t with hp | ⟨a, b, hp, _⟩
  · rcases infer_shape t with hi | hi | hi | hi <;>
      simp [extract_depth_range, define_depth_source, specDepthSource, hp, hi]
  · simp [extract_depth_range, define_depth_source, specDepthSource, hp]

/-- C5: within a sentence that passes both context filters, range
patterns outrank single-value patterns, which outrank the less-than
pattern: when a range pattern and a single-value pattern both match,
the range result is returned, and the less-than pattern is consulted
only when no range and no single-value pattern matched, in which case
the result is (0, val). -/
theorem claim_C5 (s : List Char) (a b : ℕ) (u : String) (n : ℕ) (v : String)
    (hd : depth_context s = true) (hl : length_context s = false) :
    (firstRangeHit s = some (a, b, u) → firstSingleHit s = some (n, v) →
      sentenceResult s = some (rangeVal a b u)) ∧
    (firstRangeHit s = none → firstSingleHit s = none →
      search matchLtAt s = some (n, v) →
      sentenceResult s = some (0, singleVal n v)) := by
  have hres : ∀ r, sentenceMatch s = r → sentenceResult s = r := by
    intro r hr
    unfold sentenceResult
    rw [hd, hl]
    simp only [Bool.not_true, Bool.false_eq_true, if_false]
    exact hr
  constructor
  · intro hr _hs
    apply hres
    unfold sentenceMatch
    unfold firstRangeHit at hr
    rcases hb : search matchBetweenAt s with _ | ⟨x, y, w⟩
    · rw [hb] at hr
      simp only [Option.none_orElse] at hr
      rw [hr]
    · rw [hb] at hr
      simp only [Option.some_orElse, Option.some.injEq, Prod.mk.injEq] at hr
      obtain ⟨rfl, rfl, rfl⟩ := hr
      rfl
  · intro hr hs hlt
    apply hres
    unfold sentenceMatch
    unfold firstRangeHit at hr
    obtain ⟨hb, hrg⟩ := orElse_none_split hr
    unfold firstSingleHit at hs
    obtain ⟨h1', hs⟩ := orElse_none_split hs
    obtain ⟨h2', hs⟩ := orElse_none_split hs
    obtain ⟨h3', h4'⟩ := orElse_none_split hs
    rw [hb, hrg, h1', h2', h3', h4', hlt]

/-- C5 (witness): a sentence where a range and a single-value pattern
both match, and a sentence where only the less-than pattern matches. -/
theorem claim_C5_witness :
    sentenceResult (normalizeSpace "They live at depths of 100 to 200 feet, as deep as 200 feet.".data) = some (30, 61) ∧
    sentenceResult (normalizeSpace "They live at depths less than 100 feet.".data) = some (0, 30) := by
  constructor
  · have h := (claim_C5
      (normalizeSpace "They live at depths of 100 to 200 feet, as deep as 200 feet.".data)
      100 200 "feet" 200 "feet" (by decide) (by decide)).1 (by decide) (by decide)
    rw [h]; decide
  · have h := (claim_C5
      (normalizeSpace "They live at depths less than 100 feet.".data)
      0 0 "feet" 100 "feet" (by decide) (by decide)).2 (by decide) (by decide) (by decide)
    rw [h]; decide

/-- C6: the bucket inferencer checks deep, then continental_shelf, then
shallow, first matching bucket winning, by case-insensitive substring
match against the whole whitespace-normalized narrative
(`specInfer` over the ordered `bucketTable`); in particular "This
species lives in the deep sea and rarely surfaces." yields bounds
(200, 1000) and source "bucket:deep". -/
theorem claim_C6 :
    (∀ t : String, infer_depth_bucket_range_m t = specInfer t) ∧
    extract_depth_range "This species lives in the deep sea and rarely surfaces." =
      (some 200, some 1000) ∧
    define_depth_source "This species lives in the deep sea and rarely surfaces."
      (some 200) (some 1000) = "bucket:deep" := by
  refine ⟨fun t => ?_, by decide, by decide⟩
  by_cases he : t.data.isEmpty
  · have ht : t.data = [] := by
      cases hd : t.data
      · rfl
      · rw [hd] at he; simp at he
    unfold infer_depth_bucket_range_m specInfer bucketTable
    rw [if_pos he, ht]
    decide
  · unfold infer_depth_bucket_range_m specInfer bucketTable
    rw [if_neg he]
    by_cases h1 : hasKeyword deep_keywords (lowerL (normalizeSpace t.data)) <;>
      by_cases h2 : hasKeyword shelf_keywords (lowerL (normalizeSpace t.data)) <;>
      by_cases h3 : hasKeyword shallow_keywords (lowerL (normalizeSpace t.data)) <;>
      simp [List.find?, h1, h2, h3]

/-- The elif chain of the phrase loop computes exactly the first
matching row of the ordered `categoryTable`. -/
theorem threatStep_eq (seen : Finset String) (t : String) :
    threatStep seen t =
      match categoryOf t with
      | some c => insert c seen
      | none => seen := by
  unfold threatStep categoryOf categoryTable
  by_cases h1 : hasKeyword cc_keywords (lowerL t.data)
  · simp [List.find?, h1]
  · by_cases h2 : hasKeyword disease_keywords (lowerL t.data)
    · simp [List.find?, h1, h2]
    · by_cases h3 : hasKeyword fishing_keywords (lowerL t.data)
      · simp [List.find?, h1, h2, h3]
      · by_cases h4 : hasKeyword habitat_keywords (lowerL t.data)
        · simp [List.find?, h1, h2, h3, h4]
        · by_cases h5 : hasKeyword pollution_keywords (lowerL t.data)
          · simp [List.find?, h1, h2, h3, h4, h5]
          · by_cases h6 : hasKeyword predation_keywords (lowerL t.data)
            · simp [List.find?, h1, h2, h3, h4, h5, h6]
            · by_cases h7 : hasKeyword population_keywords (lowerL t.data)
              · simp [List.find?, h1, h2, h3, h4, h5, h6, h7]
              · simp [List.find?, h1, h2, h3, h4, h5, h6, h7]

theorem foldl_threatStep (ts : List String) (seen : Finset String) :
    ts.foldl threatStep seen = seen ∪ (ts.filterMap categoryOf).toFinset := by
  induction ts generalizing seen with
  | nil => simp
  | cons t ts ih =>
    rw [List.foldl_cons, ih, threatStep_eq]
    rcases hc : categoryOf t with _ | c
    · simp [List.filterMap_cons, hc]
    · simp [List.filterMap_cons, hc, Finset.insert_union, Finset.union_insert]

/-- C7: every raw phrase contributes at most one canonical category,
the first matching one in the fixed priority order climate change,
disease, fishing, habitat loss, pollution, predation, low population
(`categoryOf` over the ordered `categoryTable`), and the output is the
deduplicated union of the per-phrase categories. -/
theorem claim_C7 (ts : List String) :
    normalize_threats ts = (ts.filterMap categoryOf).toFinset := by
  unfold normalize_threats
  split_ifs with h
  · cases ts with
    | nil => simp
    | cons t ts => simp at h
  · rw [foldl_threatStep]
    simp

/-- C8: no error for malformed or absent input: the empty narrative
(and any narrative where neither the pattern matcher nor the bucket
inferencer produces anything) yields (None, None, "unknown"), and the
empty phrase list yields the empty category set. -/
theorem claim_C8 :
    parse_explicit_depth_range_m "" = (none, none) ∧
    extract_depth_range "" = (none, none) ∧
    define_depth_source "" none none = "unknown" ∧
    normalize_threats [] = ∅ ∧
    (∀ t : String, parse_explicit_depth_range_m t = (none, none) →
      infer_depth_bucket_range_m t = (none, none, "") →
      extract_depth_range t = (none, none) ∧
        define_depth_source t none none = "unknown") := by
  refine ⟨by decide, by decide, by decide, by decide, fun t hp hi => ⟨?_, ?_⟩⟩
  · simp [extract_depth_range, hp, hi]
  · simp [define_depth_source, hp, hi]

/-- C8 (witness). -/
theorem claim_C8_witness :
    parse_explicit_depth_range_m "Gibberish." = (none, none) ∧
    infer_depth_bucket_range_m "Gibberish." = (none, none, "") ∧
    extract_depth_range "Gibberish." = (none, none) ∧
    define_depth_source "Gibberish." none none = "unknown" := by
  refine ⟨by decide, by decide, ?_, ?_⟩
  · exact (claim_C8.2.2.2.2 "Gibberish." (by decide) (by decide)).1
  · exact (claim_C8.2.2.2.2 "Gibberish." (by decide) (by decide)).2

/-- C9: a single-value explicit match whose unit is ft or feet with
value V yields both bounds equal to round(V * 0.3048) meters, where
round is banker's rounding (round-half-to-even), applied after the unit
conversion, independently to each (equal) bound; `ratHalfEven` rounds
half-integers to the even neighbour. -/
theorem claim_C9 :
    (∀ (s : List Char) (n : ℕ) (u : String),
      depth_context s = true → length_context s = false →
      search matchBetweenAt s = none → search matchRangeAt s = none →
      firstSingleHit s = some (n, u) → (u = "ft" ∨ u = "feet") →
      sentenceResult s =
        some (ratHalfEven ((n : ℚ) * (3048/10000)),
              ratHalfEven ((n : ℚ) * (3048/10000)))) ∧
    (∀ k : ℤ, ratHalfEven ((k : ℚ) + 1/2) = if k % 2 = 0 then k else k + 1) := by
  constructor
  · intro s n u h1 h2 h3 h4 h5 hu
    rw [sentenceResult_single h1 h2 h3 h4 h5]
    have hm : to_meters n u = n * 3048 := by
      rcases hu with rfl | rfl <;>
        (unfold to_meters; rw [if_neg (by decide), if_pos (by decide)])
    have hval : (singleVal n u : ℤ) = ratHalfEven ((n : ℚ) * (3048/10000)) := by
      unfold singleVal
      rw [hm, round_e4_eq_ratHalfEven]
      congr 1
      push_cast
      ring
    rw [hval]
  · intro k
    have hfl : ⌊(k : ℚ) + 1/2⌋ = k := by
      rw [Int.floor_eq_iff]
      constructor
      · linarith
      · linarith
    unfold ratHalfEven
    rw [hfl]
    have hh : ((k : ℚ) + 1/2) - (k : ℤ) = 1/2 := by ring
    rw [hh]
    norm_num

/-- C9 (witness): "Depths to 625 feet are typical." is a single-value
feet match with V = 625; 625 ft = 190.5 m rounds to the even 190. -/
theorem claim_C9_witness :
    sentenceResult (normalizeSpace "Depths to 625 feet are typical.".data) = some (190, 190) ∧
    ratHalfEven ((190 : ℤ) + 1/2) = 190 := by
  constructor
  · have h := claim_C9.1 (normalizeSpace "Depths to 625 feet are typical.".data)
      625 "feet" (by decide) (by decide) (by decide) (by decide) (by decide) (Or.inr rfl)
    rw [h]
    have h2 := round_e4_eq_ratHalfEven (625 * 3048)
    have h3 : ((625 * 3048 : ℕ) : ℚ) / 10000 = ((625 : ℕ) : ℚ) * (3048/10000) := by
      push_cast; ring
    rw [h3] at h2
    rw [← h2]
    decide
  · have h := claim_C9.2 190
    rw [h]
    decide

/-- C10: the depth extractor never returns exactly one null bound:
both `_parse_explicit_depth_range_m` and `extract_depth_range` return
either two `None`s or two non-null integers. -/
theorem claim_C10 (t : String) :
    ((parse_explicit_depth_range_m t).1 = none ↔ (parse_explicit_depth_range_m t).2 = none) ∧
    ((extract_depth_range t).1 = none ↔ (extract_depth_range t).2 = none) := by
  constructor
  · rcases parse_shape t with hp | ⟨a, b, hp, _⟩ <;> (rw [hp]; try simp)
  · unfold extract_depth_range
    split_ifs with hc
    · rcases parse_shape t with hp | ⟨a, b, hp, _⟩ <;> (rw [hp]; try simp)
    · rcases infer_shape t with hi | hi | hi | hi <;> (rw [hi]; try simp)

example : normalizeSpace "  a   b  ".data = "a b".data := by decide
example : split_sentences "One. Two two! Three".data =
    ["One.".data, "Two two!".data, "Three".data] := by decide
example : round_e4 (to_meters 100 "feet") = 30 := by decide
example : round_e4 (to_meters 200 "feet") = 61 := by decide
example : round_e4 (to_meters 625 "feet") = 190 := by decide
example : round_e4 (to_meters 1875 "FT") = 572 := by decide
example : round_e4 (to_meters 42 "m") = 42 := by decide

end EndangeredOcean
